import Mathlib

/-!
Verification of the reconciliation core of the `reports-analyzer` repository
(`pages/access_export.py`, which also contains the Home page's code).

Modelling conventions, chosen to mirror the pandas/Python source:
* a dataframe cell is `Option String`: `none` models a pandas `NaN`
  (an absent value), `some s` a present string; `pd.notna` is `Option.isSome`;
* a Python `dict` is an association list `List (key × value)` whose
  assignment `d[k] = v` replaces the value at an existing key in place
  (`mupsert`), matching Python's insertion-order-preserving semantics;
* a Python `set` of strings is a `Finset String` (identifiers that may be
  `NaN`, such as subject cells, live in `Finset (Option String)`);
* Python truthiness of an access cell (`if access:` after
  `access = row['VHFROM'] if pd.notna(row['VHFROM']) else None`) holds
  exactly for a present, non-empty string.
-/

/-- A dataframe cell: `none` models pandas `NaN`. -/
abbrev Cell := Option String

/-- First-match lookup in an association list, like Python `d[k]` / `d.get(k)`. -/
def mlookup {α β : Type} [DecidableEq α] : List (α × β) → α → Option β
  | [], _ => none
  | (k, v) :: t, a => if k = a then some v else mlookup t a

/-- Lookup with a default, like Python `d.get(k, dflt)`. -/
def mgetD {α β : Type} [DecidableEq α] (m : List (α × β)) (a : α) (dflt : β) : β :=
  (mlookup m a).getD dflt

/-- Assignment `d[k] = v`: replaces in place if the key exists, else appends. -/
def mupsert {α β : Type} [DecidableEq α] : List (α × β) → α → β → List (α × β)
  | [], k, v => [(k, v)]
  | (k0, v0) :: t, k, v =>
      if k0 = k then (k0, v) :: t else (k0, v0) :: mupsert t k v

/-- The keys of an association list (Python `d.keys()`). -/
def mkeys {α β : Type} (m : List (α × β)) : List α := m.map Prod.fst

/-- Separator characters of the regex `[,\s]+` used on `ADDL_GROUP`
(comma or Python `\s` whitespace). -/
def isSep (c : Char) : Bool :=
  c = ',' || c = ' ' || c = '\t' || c = '\n' || c = '\r' ||
  c = '\x0b' || c = '\x0c'

/-- Split a character list at every character satisfying `p`, keeping the
(possibly empty) chunks between separators. -/
def splitChars (p : Char → Bool) : List Char → List (List Char)
  | [] => [[]]
  | c :: t =>
      if p c then [] :: splitChars p t
      else
        match splitChars p t with
        | [] => [[c]]
        | h :: r => (c :: h) :: r

/-- `re.split(r'[,\s]+', s)` followed by `[g for g in ... if g]`:
split on separators and drop empty tokens, leaving the maximal runs of
non-separator characters. -/
def splitTokens (s : String) : List String :=
  ((splitChars (fun c => isSep c) s.toList).map (fun l => l.asString)).filter
    (fun t => t ≠ "")

/-- The tokens contributed by an `ADDL_GROUP` cell: none if the cell is `NaN`
(`pd.notna` guard), else the non-empty split tokens. -/
def tokensOf : Cell → List String
  | none => []
  | some s => splitTokens s

/-- The set contributed by one access cell under
`access = row['VHFROM'] if pd.notna(row['VHFROM']) else None; if access: ...add(access)`:
a singleton for a present non-empty string, otherwise empty. -/
def truthySet : Cell → Finset String
  | none => ∅
  | some s => if s = "" then ∅ else {s}

/-- A row of the master access table: its `JNUSER` and `VHFROM` cells. -/
structure ARow where
  jnuser : Cell
  vhfrom : Cell
deriving DecidableEq

/-- Whether a subject cell passes `df['JNUSER'].str.startswith('GR', na=False)`:
the characters of `"GR"` are a prefix of the subject's characters. -/
def startsGR : Cell → Bool
  | none => false
  | some s => "GR".toList.isPrefixOf s.toList

/-- A user/group-to-accesses dict: subject cell → set of access identifiers. -/
abbrev AMap := List (Cell × Finset String)

/-- A user-to-groups dict: user cell → set of group identifiers (group
identifiers are cells because the export page inserts raw cells). -/
abbrev GMap := List (Cell × Finset Cell)

/-- Loop body shared by the access resolvers:
`if user not in m: m[user] = set()` then `if access: m[user].add(access)`. -/
def addAccess (m : AMap) (user : Cell) (access : Cell) : AMap :=
  mupsert m user (mgetD m user ∅ ∪ truthySet access)

/-- `get_user_accesses` (Home page, lines 344–358): iterate all rows, skip
`*PUBLIC` rows entirely, and record each remaining subject's truthy accesses. -/
def get_user_accesses (df : List ARow) : AMap :=
  df.foldl
    (fun m r =>
      if r.jnuser = some "*PUBLIC" then m else addAccess m r.jnuser r.vhfrom)
    []

/-- `get_group_accesses` (lines 317–329): keep the rows whose `JNUSER` starts
with `"GR"` (`na=False`), then record each such subject's truthy accesses. -/
def get_group_accesses (df : List ARow) : AMap :=
  (df.filter (fun r => startsGR r.jnuser)).foldl
    (fun m r => addAccess m r.jnuser r.vhfrom) []

/-- `get_public_accesses` (lines 332–341): union of the truthy accesses of the
rows whose `JNUSER` equals `*PUBLIC`. -/
def get_public_accesses (df : List ARow) : Finset String :=
  (df.filter (fun r => r.jnuser = some "*PUBLIC")).foldl
    (fun s r => s ∪ truthySet r.vhfrom) ∅

/-- The accesses a given subject accumulates over a row list: the union of the
truthy access cells of its rows. Used to state value-level lemmas. -/
def accSet : List ARow → Cell → Finset String
  | [], _ => ∅
  | r :: t, u =>
      (if r.jnuser = u then truthySet r.vhfrom else ∅) ∪ accSet t u

/-- `find_extra_accesses` (lines 361–380): for each user of `user_groups`,
expected = public ∪ (union of `group_accesses[g]` over the user's groups `g`
present in `group_accesses`, i.e. `mgetD` with default `∅`), actual =
`user_accesses.get(user, set())`, extra = actual − expected; the user is
assigned into the result only when extra is non-empty. -/
def find_extra_accesses (user_groups : GMap) (user_accesses : AMap)
    (group_accesses : AMap) (public_accesses : Finset String) : AMap :=
  user_groups.foldl
    (fun acc p =>
      let all_expected :=
        public_accesses ∪ p.2.sup (fun g => mgetD group_accesses g ∅)
      let actual := mgetD user_accesses p.1 ∅
      let extra := actual \ all_expected
      if extra = ∅ then acc else mupsert acc p.1 extra)
    []

/-- The extra set `find_extra_accesses` computes for one `(user, groups)` pair. -/
def extraOf (user_accesses group_accesses : AMap) (public_accesses : Finset String)
    (u : Cell) (gs : Finset Cell) : Finset String :=
  mgetD user_accesses u ∅ \
    (public_accesses ∪ gs.sup (fun g => mgetD group_accesses g ∅))

/-- The loop body of `find_extra_accesses` with its lets expanded through
`extraOf`, for stating fold lemmas. -/
def festep (ua ga : AMap) (pub : Finset String) (acc : AMap)
    (p : Cell × Finset Cell) : AMap :=
  if extraOf ua ga pub p.1 p.2 = ∅ then acc
  else mupsert acc p.1 (extraOf ua ga pub p.1 p.2)

/-- A membership dataframe: its column names and its rows, each row an
association of column name to cell. -/
structure MTable where
  columns : List String
  rows : List (List (String × Cell))
deriving DecidableEq

/-- `row[c]`: the cell of a row at a column, `NaN` when no value is recorded. -/
def cell (r : List (String × Cell)) (c : String) : Cell :=
  match mlookup r c with
  | some v => v
  | none => none

/-- The `required_columns` list of both `get_user_groups` variants. -/
def requiredColumns : List String := ["USER_NAME", "MAIN_GROUP", "ADDL_GROUP"]

/-- The first required column absent from the dataframe: the column whose
missing-column error `get_user_groups` reports before returning `{}`. -/
def firstMissingCol (df : MTable) : Option String :=
  (requiredColumns.filter (fun c => !(df.columns.contains c))).head?

/-- Loop body of the Home page's `get_user_groups` (lines 306–313):
`groups = [row['MAIN_GROUP']] if pd.notna(row['MAIN_GROUP']) else []`,
extended with the non-empty `ADDL_GROUP` tokens, then made a set. -/
def rowGroups (main addl : Cell) : Finset Cell :=
  ((match main with
    | some s => [(some s : Cell)]
    | none => []) ++ (tokensOf addl).map (fun g => (some g : Cell))).toFinset

/-- `get_user_groups` (Home page, lines 299–314): report the first missing
required column and return `{}`, else map each row's `USER_NAME` cell to its
resolved group set (a repeated user is overwritten: last row wins). -/
def get_user_groups (df : MTable) : GMap :=
  match firstMissingCol df with
  | some _ => []
  | none =>
      df.rows.foldl
        (fun m r =>
          mupsert m (cell r "USER_NAME")
            (rowGroups (cell r "MAIN_GROUP") (cell r "ADDL_GROUP")))
        []

namespace ExportPage

/-- Loop body of the export page's `get_user_groups` (lines 78–83):
`groups = [row['USER_NAME'], row['MAIN_GROUP']] if pd.notna(row['MAIN_GROUP'])
else [row['USER_NAME']]`, extended with the `ADDL_GROUP` tokens — unlike the
Home page it also inserts the raw `USER_NAME` cell. -/
def rowGroups (user main addl : Cell) : Finset Cell :=
  ((match main with
    | some s => [user, (some s : Cell)]
    | none => [user]) ++ (tokensOf addl).map (fun g => (some g : Cell))).toFinset

/-- The export page's `get_user_groups` (lines 71–84): same column check and
row loop as the Home page's, but with its own `rowGroups`. -/
def get_user_groups (df : MTable) : GMap :=
  match firstMissingCol df with
  | some _ => []
  | none =>
      df.rows.foldl
        (fun m r =>
          mupsert m (cell r "USER_NAME")
            (rowGroups (cell r "USER_NAME") (cell r "MAIN_GROUP")
              (cell r "ADDL_GROUP")))
        []

end ExportPage

/-- Modelled from the spec (membership resolver contract, §4.2): the resolved
group set is seeded with the main-group value if present and non-empty, and
unioned with the non-empty comma/whitespace tokens of the additional-group
field. Stated only to be compared with the code's `rowGroups`. -/
def spec_resolved_groups (main addl : Cell) : Finset Cell :=
  ((match main with
    | some s => if s = "" then [] else [(some s : Cell)]
    | none => []) ++ (tokensOf addl).map (fun g => (some g : Cell))).toFinset

/-- Injective string encoding of a cell, used only to enumerate a cell set in
a definite order (Python iterates a `set` in an unspecified order). -/
def cellKey : Cell → String
  | none => "N"
  | some s => "S" ++ s

/-- Left inverse of `cellKey`. -/
def cellOfKey (k : String) : Cell :=
  if k = "N" then none else some (k.drop 1)

/-- The elements of a cell set as a list (in the encoded-sorted order; the
spec leaves set-iteration order unspecified). -/
def cellListOf (s : Finset Cell) : List Cell :=
  ((s.image cellKey).sort (fun a b => a ≤ b)).map cellOfKey

/-- Distinct elements of a list in first-encounter order (a `Counter`'s keys). -/
def firstSeen {α : Type} [DecidableEq α] (l : List α) : List α :=
  l.foldl (fun acc x => if x ∈ acc then acc else acc ++ [x]) []

/-- A `Counter` built from a list: each distinct element with its count,
in first-encounter order. -/
def counterList {α : Type} [DecidableEq α] (l : List α) : List (α × ℕ) :=
  (firstSeen l).map (fun x => (x, l.count x))

/-- Insert one counted element into a count-descending list, after all
entries with a count at least as large (stable descending insertion). -/
def insertDescByCount {α : Type} : α × ℕ → List (α × ℕ) → List (α × ℕ)
  | x, [] => [x]
  | x, y :: t => if y.2 < x.2 then x :: y :: t else y :: insertDescByCount x t

/-- Sort counted elements by descending count, stably. -/
def sortDescByCount {α : Type} : List (α × ℕ) → List (α × ℕ)
  | [] => []
  | x :: t => insertDescByCount x (sortDescByCount t)

/-- `Counter(l).most_common(n)`: the `n` highest-count elements. -/
def mostCommon {α : Type} [DecidableEq α] (n : ℕ) (l : List α) : List (α × ℕ) :=
  (sortDescByCount (counterList l)).take n

/-- The `stats` dict produced by `generate_summary_stats` (lines 383–403). -/
structure Stats where
  total_users : ℕ
  total_groups : ℕ
  users_with_extra_access : ℕ
  total_unique_accesses : ℕ
  public_accesses : ℕ
  avg_group_per_user : ℚ
  avg_access_per_user : ℚ
  avg_access_per_group : ℚ
  most_common_groups : List (Cell × ℕ)
  most_common_accesses : List (String × ℕ)
deriving DecidableEq

/-- `generate_summary_stats` (lines 383–403): counts, the size of the union of
all user access sets, averages guarded by emptiness of the divisor dict
(`... if d else 0`), and the two `most_common(5)` counters. -/
def generate_summary_stats (user_groups : GMap) (user_accesses : AMap)
    (group_accesses : AMap) (extra_accesses : AMap)
    (public_accesses : Finset String) : Stats :=
  ⟨user_groups.length,
   group_accesses.length,
   extra_accesses.length,
   (user_accesses.foldl
     (fun (s : Finset String) (p : Cell × Finset String) => s ∪ p.2) ∅).card,
   public_accesses.card,
   if user_groups.isEmpty then 0
     else ((user_groups.map (fun p => (p.2.card : ℚ))).sum) / (user_groups.length : ℚ),
   if user_accesses.isEmpty then 0
     else ((user_accesses.map (fun p => (p.2.card : ℚ))).sum) / (user_accesses.length : ℚ),
   if group_accesses.isEmpty then 0
     else ((group_accesses.map (fun p => (p.2.card : ℚ))).sum) / (group_accesses.length : ℚ),
   mostCommon 5
     (user_groups.foldr
       (fun (p : Cell × Finset Cell) acc => cellListOf p.2 ++ acc) []),
   mostCommon 5
     (user_accesses.foldr
       (fun (p : Cell × Finset String) acc => p.2.sort (fun a b => a ≤ b) ++ acc)
       [])⟩

/-- Everything the Home page's `main` derives once both files have loaded. -/
structure AnalysisOutput where
  user_groups : GMap
  group_accesses : AMap
  user_accesses : AMap
  public_accesses : Finset String
  extra_accesses : AMap
  stats : Stats
deriving DecidableEq

/-- The analysis pipeline of the Home page's `main` (lines 510–519): all five
derived structures are computed unconditionally once the two dataframes load;
nothing aborts after a missing-column error from `get_user_groups`. -/
def analyze (mdf : MTable) (adf : List ARow) : AnalysisOutput :=
  let ug := get_user_groups mdf
  let ga := get_group_accesses adf
  let ua := get_user_accesses adf
  let pub := get_public_accesses adf
  let ea := find_extra_accesses ug ua ga pub
  ⟨ug, ga, ua, pub, ea, generate_summary_stats ug ua ga ea pub⟩

/-! ## Association-list lemmas -/

theorem mlookup_upsert_self {α β : Type} [DecidableEq α] (m : List (α × β))
    (k : α) (v : β) : mlookup (mupsert m k v) k = some v := by
  induction m with
  | nil => simp [mupsert, mlookup]
  | cons p t ih =>
      obtain ⟨k0, v0⟩ := p
      by_cases h : k0 = k
      · simp [mupsert, h, mlookup]
      · simp [mupsert, h, mlookup, ih]

theorem mlookup_upsert_ne {α β : Type} [DecidableEq α] (m : List (α × β))
    (k a : α) (v : β) (h : a ≠ k) :
    mlookup (mupsert m k v) a = mlookup m a := by
  induction m with
  | nil => simp [mupsert, mlookup, Ne.symm h]
  | cons p t ih =>
      obtain ⟨k0, v0⟩ := p
      by_cases h0 : k0 = k
      · subst h0
        simp [mupsert, mlookup, Ne.symm h]
      · by_cases h1 : k0 = a <;> simp [mupsert, mlookup, h0, h1, ih, h]

theorem mem_mkeys_upsert {α β : Type} [DecidableEq α] (m : List (α × β))
    (k a : α) (v : β) :
    a ∈ mkeys (mupsert m k v) ↔ a = k ∨ a ∈ mkeys m := by
  induction m with
  | nil => simp [mupsert, mkeys]
  | cons p t ih =>
      obtain ⟨k0, v0⟩ := p
      by_cases h0 : k0 = k
      · subst h0
        simp [mupsert, mkeys]
      · simp only [mupsert, if_neg h0, mkeys, List.map_cons, List.mem_cons] at ih ⊢
        rw [ih]
        tauto

theorem mlookup_eq_none_iff {α β : Type} [DecidableEq α] (m : List (α × β))
    (a : α) : mlookup m a = none ↔ a ∉ mkeys m := by
  induction m with
  | nil => simp [mlookup, mkeys]
  | cons p t ih =>
      obtain ⟨k0, v0⟩ := p
      by_cases h0 : k0 = a
      · simp [mlookup, mkeys, h0]
      · simp [mlookup, mkeys, h0, ih, Ne.symm h0]

theorem mgetD_upsert_self {α β : Type} [DecidableEq α] (m : List (α × β))
    (k : α) (v d : β) : mgetD (mupsert m k v) k d = v := by
  simp [mgetD, mlookup_upsert_self]

theorem mgetD_upsert_ne {α β : Type} [DecidableEq α] (m : List (α × β))
    (k a : α) (v d : β) (h : a ≠ k) :
    mgetD (mupsert m k v) a d = mgetD m a d := by
  simp [mgetD, mlookup_upsert_ne m k a v h]

/-! ## Access-resolver fold lemmas -/

theorem mem_mkeys_addAccess (m : AMap) (k u a : Cell) :
    u ∈ mkeys (addAccess m k a) ↔ u = k ∨ u ∈ mkeys m := by
  simp [addAccess, mem_mkeys_upsert]

theorem mgetD_addAccess (m : AMap) (k u a : Cell) :
    mgetD (addAccess m k a) u ∅ =
      mgetD m u ∅ ∪ (if k = u then truthySet a else ∅) := by
  by_cases h : u = k
  · subst h
    simp [addAccess, mgetD_upsert_self]
  · simp [addAccess, mgetD_upsert_ne m k u _ _ h, Ne.symm h]

theorem ua_foldl_mem_mkeys (df : List ARow) : ∀ (m : AMap) (u : Cell),
    u ∈ mkeys (df.foldl
        (fun m r =>
          if r.jnuser = some "*PUBLIC" then m else addAccess m r.jnuser r.vhfrom)
        m) ↔
      u ∈ mkeys m ∨ (u ≠ some "*PUBLIC" ∧ ∃ r ∈ df, r.jnuser = u) := by
  induction df with
  | nil => simp
  | cons r t ih =>
      intro m u
      simp only [List.foldl_cons]
      by_cases hp : r.jnuser = some "*PUBLIC"
      · rw [if_pos hp, ih]
        simp only [List.mem_cons]
        constructor
        · rintro (hm | ⟨hu, x, hx, hxu⟩)
          · exact Or.inl hm
          · exact Or.inr ⟨hu, x, Or.inr hx, hxu⟩
        · rintro (hm | ⟨hu, x, hx | hx, hxu⟩)
          · exact Or.inl hm
          · exact absurd (by rw [← hxu, hx, hp]) hu
          · exact Or.inr ⟨hu, x, hx, hxu⟩
      · rw [if_neg hp, ih]
        simp only [mem_mkeys_addAccess, List.mem_cons]
        constructor
        · rintro ((h1 | hm) | ⟨hu, x, hx, hxu⟩)
          · exact Or.inr ⟨h1 ▸ hp, r, Or.inl rfl, h1.symm⟩
          · exact Or.inl hm
          · exact Or.inr ⟨hu, x, Or.inr hx, hxu⟩
        · rintro (hm | ⟨hu, x, hx | hx, hxu⟩)
          · exact Or.inl (Or.inr hm)
          · exact Or.inl (Or.inl (by rw [← hxu, hx]))
          · exact Or.inr ⟨hu, x, hx, hxu⟩

theorem ua_foldl_mgetD (df : List ARow) : ∀ (m : AMap) (u : Cell),
    u ≠ some "*PUBLIC" →
    mgetD (df.foldl
        (fun m r =>
          if r.jnuser = some "*PUBLIC" then m else addAccess m r.jnuser r.vhfrom)
        m) u ∅ =
      mgetD m u ∅ ∪ accSet df u := by
  induction df with
  | nil => simp [accSet]
  | cons r t ih =>
      intro m u hu
      simp only [List.foldl_cons]
      by_cases hp : r.jnuser = some "*PUBLIC"
      · rw [if_pos hp, ih _ u hu]
        simp [accSet, hp, Ne.symm hu]
      · rw [if_neg hp, ih _ u hu, mgetD_addAccess]
        simp [accSet, Finset.union_assoc]

theorem ga_foldl_mem_mkeys (df : List ARow) : ∀ (m : AMap) (u : Cell),
    u ∈ mkeys (df.foldl (fun m r => addAccess m r.jnuser r.vhfrom) m) ↔
      u ∈ mkeys m ∨ ∃ r ∈ df, r.jnuser = u := by
  induction df with
  | nil => simp
  | cons r t ih =>
      intro m u
      simp only [List.foldl_cons]
      rw [ih]
      simp only [mem_mkeys_addAccess, List.mem_cons]
      constructor
      · rintro ((h1 | hm) | ⟨x, hx, hxu⟩)
        · exact Or.inr ⟨r, Or.inl rfl, h1.symm⟩
        · exact Or.inl hm
        · exact Or.inr ⟨x, Or.inr hx, hxu⟩
      · rintro (hm | ⟨x, hx | hx, hxu⟩)
        · exact Or.inl (Or.inr hm)
        · exact Or.inl (Or.inl (by rw [← hxu, hx]))
        · exact Or.inr ⟨x, hx, hxu⟩

theorem ga_foldl_mgetD (df : List ARow) : ∀ (m : AMap) (u : Cell),
    mgetD (df.foldl (fun m r => addAccess m r.jnuser r.vhfrom) m) u ∅ =
      mgetD m u ∅ ∪ accSet df u := by
  induction df with
  | nil => simp [accSet]
  | cons r t ih =>
      intro m u
      simp only [List.foldl_cons]
      rw [ih, mgetD_addAccess]
      simp [accSet, Finset.union_assoc]

/-! ## Resolver-level lemmas -/

theorem mem_mkeys_get_user_accesses (df : List ARow) (u : Cell) :
    u ∈ mkeys (get_user_accesses df) ↔
      u ≠ some "*PUBLIC" ∧ ∃ r ∈ df, r.jnuser = u := by
  rw [get_user_accesses, ua_foldl_mem_mkeys]
  simp [mkeys]

theorem mgetD_get_user_accesses (df : List ARow) (u : Cell)
    (hu : u ≠ some "*PUBLIC") :
    mgetD (get_user_accesses df) u ∅ = accSet df u := by
  rw [get_user_accesses, ua_foldl_mgetD df [] u hu]
  simp [mgetD, mlookup]

theorem mem_mkeys_get_group_accesses (df : List ARow) (u : Cell) :
    u ∈ mkeys (get_group_accesses df) ↔
      (∃ r ∈ df, r.jnuser = u) ∧ startsGR u = true := by
  rw [get_group_accesses, ga_foldl_mem_mkeys]
  simp only [mkeys, List.map_nil, List.not_mem_nil, false_or, List.mem_filter]
  constructor
  · rintro ⟨r, ⟨hr, hGR⟩, hru⟩
    exact ⟨⟨r, hr, hru⟩, hru ▸ hGR⟩
  · rintro ⟨⟨r, hr, hru⟩, hGR⟩
    exact ⟨r, ⟨hr, hru ▸ hGR⟩, hru⟩

theorem mgetD_get_group_accesses (df : List ARow) (u : Cell) :
    mgetD (get_group_accesses df) u ∅ =
      accSet (df.filter (fun r => startsGR r.jnuser)) u := by
  rw [get_group_accesses, ga_foldl_mgetD]
  simp [mgetD, mlookup]

theorem pub_foldl_init_subset (l : List ARow) : ∀ (s0 : Finset String),
    s0 ⊆ l.foldl (fun s r => s ∪ truthySet r.vhfrom) s0 := by
  induction l with
  | nil => simp
  | cons r t ih =>
      intro s0
      simp only [List.foldl_cons]
      exact Finset.Subset.trans Finset.subset_union_left (ih _)

theorem pub_foldl_mem_subset (l : List ARow) : ∀ (s0 : Finset String) (r : ARow),
    r ∈ l → truthySet r.vhfrom ⊆ l.foldl (fun s r => s ∪ truthySet r.vhfrom) s0 := by
  induction l with
  | nil => simp
  | cons x t ih =>
      intro s0 r hr
      simp only [List.foldl_cons]
      rcases List.mem_cons.mp hr with hx | hx
      · subst hx
        exact Finset.Subset.trans Finset.subset_union_right (pub_foldl_init_subset t _)
      · exact ih _ r hx

theorem truthySet_subset_get_public_accesses (df : List ARow) (r : ARow)
    (hr : r ∈ df) (hp : r.jnuser = some "*PUBLIC") :
    truthySet r.vhfrom ⊆ get_public_accesses df := by
  rw [get_public_accesses]
  exact pub_foldl_mem_subset _ _ r (List.mem_filter.mpr ⟨hr, by simp [hp]⟩)

/-! ## `find_extra_accesses` characterization -/

theorem find_extra_accesses_eq_foldl (ug : GMap) (ua ga : AMap)
    (pub : Finset String) :
    find_extra_accesses ug ua ga pub = ug.foldl (festep ua ga pub) [] := rfl

theorem festep_foldl_notmem (l : GMap) (ua ga : AMap) (pub : Finset String) :
    ∀ (acc : AMap) (u : Cell), u ∉ mkeys l →
      mlookup (l.foldl (festep ua ga pub) acc) u = mlookup acc u := by
  induction l with
  | nil => simp
  | cons p t ih =>
      intro acc u hu
      simp only [mkeys, List.map_cons, List.mem_cons] at hu
      push_neg at hu
      simp only [List.foldl_cons]
      rw [ih _ u (by simpa [mkeys] using hu.2)]
      rw [festep]
      by_cases he : extraOf ua ga pub p.1 p.2 = ∅
      · rw [if_pos he]
      · rw [if_neg he, mlookup_upsert_ne _ _ _ _ hu.1]

theorem festep_foldl_char (l : GMap) (ua ga : AMap) (pub : Finset String) :
    ∀ (acc : AMap) (u : Cell) (gs : Finset Cell), (mkeys l).Nodup →
      mlookup l u = some gs → mlookup acc u = none →
      mlookup (l.foldl (festep ua ga pub) acc) u =
        if extraOf ua ga pub u gs = ∅ then none
        else some (extraOf ua ga pub u gs) := by
  induction l with
  | nil => simp [mlookup]
  | cons p t ih =>
      intro acc u gs hnd hl hacc
      obtain ⟨p1, p2⟩ := p
      simp only [mkeys, List.map_cons, List.nodup_cons] at hnd
      simp only [List.foldl_cons]
      by_cases hpu : p1 = u
      · subst hpu
        rw [mlookup] at hl
        rw [if_pos rfl] at hl
        injection hl with hgs
        subst hgs
        rw [festep_foldl_notmem t ua ga pub _ p1 (by simpa [mkeys] using hnd.1)]
        rw [festep]
        by_cases he : extraOf ua ga pub p1 p2 = ∅
        · rw [if_pos he, if_pos he, hacc]
        · rw [if_neg he, if_neg he, mlookup_upsert_self]
      · rw [mlookup, if_neg hpu] at hl
        refine ih _ u gs hnd.2 hl ?_
        rw [festep]
        by_cases he : extraOf ua ga pub p1 p2 = ∅
        · rw [if_pos he]
          exact hacc
        · rw [if_neg he, mlookup_upsert_ne _ _ _ _ (fun hh => hpu hh.symm)]
          exact hacc

theorem find_extra_lookup (ug : GMap) (ua ga : AMap) (pub : Finset String)
    (u : Cell) (hnd : (mkeys ug).Nodup) :
    mlookup (find_extra_accesses ug ua ga pub) u =
      match mlookup ug u with
      | none => none
      | some gs =>
          if extraOf ua ga pub u gs = ∅ then none
          else some (extraOf ua ga pub u gs) := by
  rw [find_extra_accesses_eq_foldl]
  cases hl : mlookup ug u with
  | none =>
      rw [festep_foldl_notmem ug ua ga pub [] u
        ((mlookup_eq_none_iff ug u).mp hl)]
      simp [mlookup]
  | some gs =>
      exact festep_foldl_char ug ua ga pub [] u gs hnd hl (by simp [mlookup])

/-! ## Membership-resolver lemmas -/

theorem ug_foldl_mem_mkeys (rows : List (List (String × Cell))) :
    ∀ (m : GMap) (u : Cell),
    u ∈ mkeys (rows.foldl
        (fun m r =>
          mupsert m (cell r "USER_NAME")
            (rowGroups (cell r "MAIN_GROUP") (cell r "ADDL_GROUP")))
        m) ↔
      u ∈ mkeys m ∨ ∃ r ∈ rows, cell r "USER_NAME" = u := by
  induction rows with
  | nil => simp
  | cons r t ih =>
      intro m u
      simp only [List.foldl_cons]
      rw [ih]
      simp only [mem_mkeys_upsert, List.mem_cons]
      constructor
      · rintro ((h1 | hm) | ⟨x, hx, hxu⟩)
        · exact Or.inr ⟨r, Or.inl rfl, h1.symm⟩
        · exact Or.inl hm
        · exact Or.inr ⟨x, Or.inr hx, hxu⟩
      · rintro (hm | ⟨x, hx | hx, hxu⟩)
        · exact Or.inl (Or.inr hm)
        · exact Or.inl (Or.inl (by rw [← hxu, hx]))
        · exact Or.inr ⟨x, hx, hxu⟩

theorem mem_mkeys_get_user_groups (df : MTable) (u : Cell)
    (hcols : firstMissingCol df = none) :
    u ∈ mkeys (get_user_groups df) ↔ ∃ r ∈ df.rows, cell r "USER_NAME" = u := by
  have heq : get_user_groups df =
      df.rows.foldl
        (fun m r =>
          mupsert m (cell r "USER_NAME")
            (rowGroups (cell r "MAIN_GROUP") (cell r "ADDL_GROUP")))
        [] := by
    unfold get_user_groups
    rw [hcols]
  rw [heq, ug_foldl_mem_mkeys]
  simp [mkeys]

/-! ## Claims -/

/-- C1: for every user `u` of the `user_groups` dict (and only those users:
a user outside `user_groups` never appears), `find_extra_accesses` looks up
`u` to `extra = user_accesses.get(u, ∅) −
(public_accesses ∪ ⋃ g ∈ groups, group_accesses.get(g, ∅))`, and `u` is a key
of the result exactly when this `extra` is non-empty. -/
theorem find_extra_accesses_spec (ug : GMap) (ua ga : AMap)
    (pub : Finset String) (u : Cell) (hnd : (mkeys ug).Nodup) :
    mlookup (find_extra_accesses ug ua ga pub) u =
      match mlookup ug u with
      | none => none
      | some gs =>
          let expected := pub ∪ gs.sup (fun g => mgetD ga g ∅)
          let actual := mgetD ua u ∅
          let extra := actual \ expected
          if extra = ∅ then none else some extra := by
  have h := find_extra_lookup ug ua ga pub u hnd
  cases hl : mlookup ug u with
  | none =>
      rw [hl] at h
      rw [h]
  | some gs =>
      rw [hl] at h
      rw [h]
      rfl

/-- Witness for C1 at a concrete input: user U1 holds X and Y, its group G1
grants Y, public grants Z, so U1's extra set is exactly `{X}`. -/
theorem find_extra_accesses_spec_witness :
    mlookup (find_extra_accesses [(some "U1", {some "G1"})]
        [(some "U1", {"X", "Y"})] [(some "G1", {"Y"})] {"Z"}) (some "U1") =
      some {"X"} := by
  rw [find_extra_accesses_spec [(some "U1", {some "G1"})]
    [(some "U1", {"X", "Y"})] [(some "G1", {"Y"})] {"Z"} (some "U1")
    (by decide)]
  decide

/-- C2 counterexample: routing is NOT exclusive. The single row
`(JNUSER = "GRX", VHFROM = "A1")` has a group-marker subject, yet `"GRX"`
appears as a key of `get_user_accesses`' result as well as of
`get_group_accesses`'. -/
theorem group_rows_also_user_rows_cex :
    startsGR (some "GRX") = true ∧
    some "GRX" ∈ mkeys (get_user_accesses [⟨some "GRX", some "A1"⟩]) ∧
    some "GRX" ∈ mkeys (get_group_accesses [⟨some "GRX", some "A1"⟩]) := by
  decide

/-- A row's truthy access contribution is contained in the accumulated access
set of its subject over any row list containing it. -/
theorem truthySet_subset_accSet (l : List ARow) (r : ARow) (u : Cell)
    (hr : r ∈ l) (hu : r.jnuser = u) :
    truthySet r.vhfrom ⊆ accSet l u := by
  induction l with
  | nil => cases hr
  | cons x t ih =>
      rcases List.mem_cons.mp hr with hx | hx
      · subst hx
        have hc : accSet (r :: t) u =
            (if r.jnuser = u then truthySet r.vhfrom else ∅) ∪ accSet t u := rfl
        rw [hc, if_pos hu]
        exact Finset.subset_union_left
      · have hc : accSet (x :: t) u =
            (if x.jnuser = u then truthySet x.vhfrom else ∅) ∪ accSet t u := rfl
        rw [hc]
        exact (ih hx).trans Finset.subset_union_right

/-- C2 amended: a group-marker row contributes its truthy access to
`group_accesses` keyed by its full subject id, but routing is not exclusive:
the subject ALSO appears as a key of `get_user_accesses`' result, where the
row's truthy access equally lands; only the `*PUBLIC` subject is excluded
from `user_accesses`. -/
theorem access_row_routing_amended (df : List ARow) (r : ARow) (hr : r ∈ df) :
    (startsGR r.jnuser = true →
      r.jnuser ∈ mkeys (get_group_accesses df) ∧
      truthySet r.vhfrom ⊆ mgetD (get_group_accesses df) r.jnuser ∅) ∧
    (r.jnuser ≠ some "*PUBLIC" →
      r.jnuser ∈ mkeys (get_user_accesses df) ∧
      truthySet r.vhfrom ⊆ mgetD (get_user_accesses df) r.jnuser ∅) := by
  constructor
  · intro hGR
    refine ⟨(mem_mkeys_get_group_accesses df r.jnuser).mpr ⟨⟨r, hr, rfl⟩, hGR⟩, ?_⟩
    rw [mgetD_get_group_accesses]
    exact truthySet_subset_accSet _ r r.jnuser
      (List.mem_filter.mpr ⟨hr, by simpa using hGR⟩) rfl
  · intro hu
    refine ⟨(mem_mkeys_get_user_accesses df r.jnuser).mpr ⟨hu, r, hr, rfl⟩, ?_⟩
    rw [mgetD_get_user_accesses df r.jnuser hu]
    exact truthySet_subset_accSet df r r.jnuser hr rfl

/-- Witness for the amended C2 at a concrete input: the group-marker row's
subject is keyed in `user_accesses` too, with the row's access in its set. -/
theorem access_row_routing_amended_witness :
    some "GRX" ∈ mkeys (get_user_accesses [⟨some "GRX", some "A1"⟩]) ∧
    truthySet (some "A1") ⊆
      mgetD (get_user_accesses [⟨some "GRX", some "A1"⟩]) (some "GRX") ∅ :=
  (access_row_routing_amended [⟨some "GRX", some "A1"⟩]
    ⟨some "GRX", some "A1"⟩ (by decide)).2 (by decide)

/-- C3 counterexample: the export page's resolver does not return exactly
`{A, B, C, D}` for main group `"A"` and additional groups `"B, C D"` — it
additionally contains the user's own identifier `"U"`. -/
theorem export_groups_includes_user_cex :
    some "U" ∈ mgetD (ExportPage.get_user_groups
        ⟨requiredColumns,
          [[("USER_NAME", some "U"), ("MAIN_GROUP", some "A"),
            ("ADDL_GROUP", some "B, C D")]]⟩) (some "U") ∅ ∧
    mgetD (ExportPage.get_user_groups
        ⟨requiredColumns,
          [[("USER_NAME", some "U"), ("MAIN_GROUP", some "A"),
            ("ADDL_GROUP", some "B, C D")]]⟩) (some "U") ∅ ≠
      ({some "A", some "B", some "C", some "D"} : Finset Cell) := by
  decide

/-- C3 amended: the Home page's resolver matches the spec formula whenever
the main-group cell is not the (CSV-unreachable) present-but-empty string;
the export page's resolver returns the same set with the user's own raw
identifier cell inserted; the `{A, B, C, D}` example holds for the Home
page's resolver. -/
theorem resolved_groups_amended :
    (∀ main addl : Cell, main ≠ some "" →
        rowGroups main addl = spec_resolved_groups main addl) ∧
    (∀ user main addl : Cell,
        ExportPage.rowGroups user main addl = insert user (rowGroups main addl)) ∧
    mgetD (get_user_groups
        ⟨requiredColumns,
          [[("USER_NAME", some "U"), ("MAIN_GROUP", some "A"),
            ("ADDL_GROUP", some "B, C D")]]⟩) (some "U") ∅ =
      {some "A", some "B", some "C", some "D"} := by
  refine ⟨?_, ?_, by decide⟩
  · intro main addl hm
    cases main with
    | none => rfl
    | some s =>
        have hs : s ≠ "" := fun h => hm (by rw [h])
        simp [rowGroups, spec_resolved_groups, hs]
  · intro user main addl
    cases main <;> simp [ExportPage.rowGroups, rowGroups]

/-- Witness for the amended C3: the Home resolver agrees with the spec
formula at main group `"A"`, additional groups `"B, C D"`. -/
theorem resolved_groups_amended_witness :
    rowGroups (some "A") (some "B, C D") =
      spec_resolved_groups (some "A") (some "B, C D") :=
  resolved_groups_amended.1 (some "A") (some "B, C D") (by decide)

/-- C4: `*PUBLIC` rows route exclusively to the public-access set — the
public pseudo-subject is never a key of `get_user_accesses`' (nor of
`get_group_accesses`') result, and each `*PUBLIC` row's truthy access lands
in `get_public_accesses`' result. -/
theorem public_rows_routing (df : List ARow) :
    some "*PUBLIC" ∉ mkeys (get_user_accesses df) ∧
    some "*PUBLIC" ∉ mkeys (get_group_accesses df) ∧
    ∀ r ∈ df, r.jnuser = some "*PUBLIC" →
      truthySet r.vhfrom ⊆ get_public_accesses df := by
  refine ⟨?_, ?_, ?_⟩
  · intro h
    exact ((mem_mkeys_get_user_accesses df _).mp h).1 rfl
  · intro h
    exact absurd ((mem_mkeys_get_group_accesses df _).mp h).2 (by decide)
  · intro r hr hp
    exact truthySet_subset_get_public_accesses df r hr hp

/-- Witness for C4 at a concrete input. -/
theorem public_rows_routing_witness :
    truthySet (some "Z") ⊆ get_public_accesses [⟨some "*PUBLIC", some "Z"⟩] :=
  (public_rows_routing [⟨some "*PUBLIC", some "Z"⟩]).2.2
    ⟨some "*PUBLIC", some "Z"⟩ (by decide) (by decide)

/-- C5: the extra-access computation is antitone in `public_accesses` —
enlarging the public set with one more access identifier can only shrink or
preserve each user's resulting extra set. -/
theorem extra_antitone_public (ug : GMap) (ua ga : AMap) (pub : Finset String)
    (a : String) (u : Cell) (hnd : (mkeys ug).Nodup) :
    mgetD (find_extra_accesses ug ua ga (insert a pub)) u ∅ ⊆
      mgetD (find_extra_accesses ug ua ga pub) u ∅ := by
  have h1 := find_extra_lookup ug ua ga (insert a pub) u hnd
  have h2 := find_extra_lookup ug ua ga pub u hnd
  unfold mgetD
  rw [h1, h2]
  cases hl : mlookup ug u with
  | none => simp
  | some gs =>
      have hsub : extraOf ua ga (insert a pub) u gs ⊆ extraOf ua ga pub u gs := by
        refine Finset.sdiff_subset_sdiff (Finset.Subset.refl _) ?_
        exact Finset.union_subset_union (Finset.subset_insert a pub)
          (Finset.Subset.refl _)
      by_cases he1 : extraOf ua ga (insert a pub) u gs = ∅
      · simp [he1]
      · have he2 : extraOf ua ga pub u gs ≠ ∅ := by
          intro h0
          exact he1 (Finset.subset_empty.mp (h0 ▸ hsub))
        simpa [he1, he2] using hsub

/-- Witness for C5 at a concrete input: adding `X` to an empty public set
shrinks user U1's extra set from `{X}` to `∅`. -/
theorem extra_antitone_public_witness :
    mgetD (find_extra_accesses [(some "U1", (∅ : Finset Cell))]
        [(some "U1", {"X"})] [] (insert "X" ∅)) (some "U1") ∅ ⊆
      mgetD (find_extra_accesses [(some "U1", (∅ : Finset Cell))]
        [(some "U1", {"X"})] [] ∅) (some "U1") ∅ :=
  extra_antitone_public _ _ _ _ "X" (some "U1") (by decide)

/-- C6 counterexample: with `ADDL_GROUP` missing from the membership table,
a missing-column error is reported and `get_user_groups` returns `{}`, yet
the analysis still runs and produces non-empty access-table-derived output
(here one distinct user access), contradicting "no partial or degraded
results are produced". -/
theorem missing_column_partial_results_cex :
    firstMissingCol ⟨["USER_NAME", "MAIN_GROUP"],
        [[("USER_NAME", some "U1"), ("MAIN_GROUP", some "G1")]]⟩ =
      some "ADDL_GROUP" ∧
    get_user_groups ⟨["USER_NAME", "MAIN_GROUP"],
        [[("USER_NAME", some "U1"), ("MAIN_GROUP", some "G1")]]⟩ = [] ∧
    (analyze ⟨["USER_NAME", "MAIN_GROUP"],
        [[("USER_NAME", some "U1"), ("MAIN_GROUP", some "G1")]]⟩
      [⟨some "U1", some "X"⟩]).user_accesses = [(some "U1", {"X"})] ∧
    (analyze ⟨["USER_NAME", "MAIN_GROUP"],
        [[("USER_NAME", some "U1"), ("MAIN_GROUP", some "G1")]]⟩
      [⟨some "U1", some "X"⟩]).stats.total_unique_accesses = 1 := by
  decide

/-- C6 amended: when a required membership-table column is missing, an error
naming the first missing column is reported and `get_user_groups` returns the
empty dict; the analysis then continues with that empty dict — all
access-table-derived structures and the statistics are still computed and
shown (degraded results), and the extra-access dict is empty. The
access-table resolver performs no column check at all. -/
theorem missing_column_behavior_amended (mdf : MTable) (adf : List ARow)
    (h : firstMissingCol mdf ≠ none) :
    (analyze mdf adf).user_groups = [] ∧
    (analyze mdf adf).user_accesses = get_user_accesses adf ∧
    (analyze mdf adf).group_accesses = get_group_accesses adf ∧
    (analyze mdf adf).public_accesses = get_public_accesses adf ∧
    (analyze mdf adf).extra_accesses = [] ∧
    (analyze mdf adf).stats =
      generate_summary_stats [] (get_user_accesses adf)
        (get_group_accesses adf) [] (get_public_accesses adf) := by
  have hug : get_user_groups mdf = [] := by
    unfold get_user_groups
    cases hm : firstMissingCol mdf with
    | none => exact absurd hm h
    | some c => rfl
  refine ⟨?_, ?_, ?_, ?_, ?_, ?_⟩ <;> simp [analyze, hug, find_extra_accesses]

/-- Witness for the amended C6 at a concrete input. -/
theorem missing_column_behavior_amended_witness :
    (analyze ⟨["USER_NAME"], []⟩ [⟨some "U1", some "X"⟩]).user_groups = [] :=
  (missing_column_behavior_amended ⟨["USER_NAME"], []⟩
    [⟨some "U1", some "X"⟩] (by decide)).1

/-- C7 counterexample: a membership row whose `USER_NAME` is the empty string
is NOT skipped — the empty identifier becomes a key of the resulting dict. -/
theorem empty_user_key_created_cex :
    some "" ∈ mkeys (get_user_groups
      ⟨requiredColumns,
        [[("USER_NAME", some ""), ("MAIN_GROUP", some "A")]]⟩) := by
  decide

/-- C7 amended: the membership resolver performs no user-identifier check:
every row of a column-complete table contributes its `USER_NAME` cell — be it
empty or `NaN` — as a key of the resulting dict. -/
theorem user_key_always_created_amended (df : MTable)
    (r : List (String × Cell)) (hcols : firstMissingCol df = none)
    (hr : r ∈ df.rows) :
    cell r "USER_NAME" ∈ mkeys (get_user_groups df) :=
  (mem_mkeys_get_user_groups df _ hcols).mpr ⟨r, hr, rfl⟩

/-- Witness for the amended C7 at a concrete input. -/
theorem user_key_always_created_amended_witness :
    cell [("USER_NAME", some ""), ("MAIN_GROUP", some "A")] "USER_NAME" ∈
      mkeys (get_user_groups ⟨requiredColumns,
        [[("USER_NAME", some ""), ("MAIN_GROUP", some "A")]]⟩) :=
  user_key_always_created_amended _
    [("USER_NAME", some ""), ("MAIN_GROUP", some "A")] (by decide) (by decide)

/-- C8: a row whose access value is absent/empty (its truthy contribution is
`∅`) contributes no access edge, yet its subject still gets a key in the
corresponding dict: in `user_accesses` when the subject is not `*PUBLIC`, in
`group_accesses` when the subject carries the group marker — and in each case
the stored set is exactly the union of the subject's truthy contributions
(so it is `∅` when every one of the subject's rows has an empty access). -/
theorem empty_access_row_keeps_subject (df : List ARow) (r : ARow)
    (hr : r ∈ df) (_hempty : truthySet r.vhfrom = ∅) :
    (r.jnuser ≠ some "*PUBLIC" →
      r.jnuser ∈ mkeys (get_user_accesses df) ∧
      mgetD (get_user_accesses df) r.jnuser ∅ = accSet df r.jnuser) ∧
    (startsGR r.jnuser = true →
      r.jnuser ∈ mkeys (get_group_accesses df) ∧
      mgetD (get_group_accesses df) r.jnuser ∅ =
        accSet (df.filter (fun x => startsGR x.jnuser)) r.jnuser) := by
  constructor
  · intro hu
    exact ⟨(mem_mkeys_get_user_accesses df _).mpr ⟨hu, r, hr, rfl⟩,
      mgetD_get_user_accesses df _ hu⟩
  · intro hGR
    exact ⟨(mem_mkeys_get_group_accesses df _).mpr ⟨⟨r, hr, rfl⟩, hGR⟩,
      mgetD_get_group_accesses df _⟩

/-- Witness for C8 at a concrete input: subject U1's only row has a `NaN`
access, and U1 still gets a key whose value is the empty set. -/
theorem empty_access_row_keeps_subject_witness :
    some "U1" ∈ mkeys (get_user_accesses [⟨some "U1", none⟩]) ∧
    mgetD (get_user_accesses [⟨some "U1", none⟩]) (some "U1") ∅ =
      accSet [⟨some "U1", none⟩] (some "U1") :=
  (empty_access_row_keeps_subject [⟨some "U1", none⟩] ⟨some "U1", none⟩
    (by decide) (by decide)).1 (by decide)

/-- C9: the group-marker convention is the literal prefix `"GR"`: a subject
is a key of `get_group_accesses`' result exactly when it occurs in the table
and its identifier starts with `"GR"` — so an ordinary user whose identifier
happens to begin with `"GR"` is classified as a group. -/
theorem group_marker_GR (df : List ARow) (u : Cell) :
    (u ∈ mkeys (get_group_accesses df) ↔
      (∃ r ∈ df, r.jnuser = u) ∧ startsGR u = true) ∧
    ∀ s : String, (startsGR (some s) = true ↔ ∃ t, "GR".toList ++ t = s.toList) := by
  refine ⟨mem_mkeys_get_group_accesses df u, fun s => ?_⟩
  rw [startsGR, List.isPrefixOf_iff_prefix]
  exact Iff.rfl

/-- Witness for C9 at a concrete input: `"GRU"` names an ordinary user, yet
it is keyed as a group. -/
theorem group_marker_GR_witness :
    some "GRU" ∈ mkeys (get_group_accesses [⟨some "GRU", some "X"⟩]) :=
  (group_marker_GR [⟨some "GRU", some "X"⟩] (some "GRU")).1.mpr (by decide)

/-- C10: `generate_summary_stats` is total and its guarded divisions yield 0
on empty dicts: each average is 0 when its divisor dict is empty, and the
distinct-access count over an empty `user_accesses` dict is 0. -/
theorem generate_summary_stats_empty_guards (ug : GMap) (ua ga ea : AMap)
    (pub : Finset String) :
    (generate_summary_stats [] ua ga ea pub).avg_group_per_user = 0 ∧
    (generate_summary_stats ug [] ga ea pub).avg_access_per_user = 0 ∧
    (generate_summary_stats ug [] ga ea pub).total_unique_accesses = 0 ∧
    (generate_summary_stats ug ua [] ea pub).avg_access_per_group = 0 := by
  refine ⟨?_, ?_, ?_, ?_⟩ <;> simp [generate_summary_stats]
